import Mathlib

/-!
Shallow embedding of the per-source-buffer coordination layer
(`media/filters/media_source_state.cc`, class `MediaSourceState`).

Conventions:
* `ChunkDemuxerStream*` handles are modelled as `Nat`, with `0` playing the
  role of the null pointer returned by a failed `create_demuxer_stream_cb_`.
* Calls into external collaborators (stream factory, `FrameProcessor`,
  per-track storage engines) are modelled by oracle functions bundled in
  environment structures; the observable calls the coordinator makes are
  recorded in an effect trace.
* `std::map` members (`audio_streams_`, `video_streams_`, `text_stream_map_`)
  are modelled as key-sorted association lists; `begin()` is the head.
* `base::TimeDelta` is modelled as `Int` (microsecond count); `size_t` /
  `uint64_t` sizes are modelled as `Nat`.
* `DCHECK`s are debug-only no-ops and are not modelled; the one `CHECK`
  in `OnNewConfigs` is modelled as a `fatal` outcome.
-/

namespace MediaSourceState

/-- Bytestream track identifier (`StreamParser::TrackId`). -/
abbrev TrackId := Nat

/-- Stream handle (`ChunkDemuxerStream*`): `0` models the null pointer. -/
abbrev Stream := Nat

/-- Key-sorted association list modelling a `std::map` with `Nat` keys. -/
abbrev SMap (α : Type) := List (Nat × α)

/-- `std::map::operator[] =`: sorted insert, replacing an existing key. -/
def SMap.insert {α : Type} : SMap α → Nat → α → SMap α
  | [], k, v => [(k, v)]
  | (k', v') :: t, k, v =>
    if k < k' then (k, v) :: (k', v') :: t
    else if k = k' then (k, v) :: t
    else (k', v') :: SMap.insert t k v

/-- `std::map::erase(key)`. -/
def SMap.erase {α : Type} (m : SMap α) (k : Nat) : SMap α :=
  m.filter (fun p => p.1 != k)

/-- `std::map::find`, returning the mapped value when present. -/
def SMap.find? {α : Type} : SMap α → Nat → Option α
  | [], _ => none
  | (k', v') :: t, k => if k = k' then some v' else SMap.find? t k

/-- Demuxer stream kinds used by `create_demuxer_stream_cb_`. -/
inductive StreamKind where
  | audio
  | video
  | text
deriving DecidableEq

/-- `MediaTrack::Type` of a proposed track. -/
inductive MediaTrackType where
  | audio
  | video
  | other
deriving DecidableEq

/-- One entry of the `MediaTracks` proposal handed to `OnNewConfigs`.
The decode config is abbreviated to its codec, which is the only part of
the config that the coordinator itself inspects. -/
structure ProposedTrack where
  type : MediaTrackType
  bytestreamTrackId : TrackId
  codec : Nat
deriving DecidableEq

/-- `TextTrackConfig`: kind/label/language plus the blink-side config id. -/
structure TextTrackConfig where
  kind : Nat
  label : Nat
  language : Nat
  id : Nat
deriving DecidableEq

/-- `MediaSourceState` state machine (`State` enum). -/
inductive SBState where
  | uninitialized
  | pendingParserConfig
  | pendingParserInit
  | parserInitialized
deriving DecidableEq

/-- The mutable fields of `MediaSourceState` that the negotiation and
eviction paths read or write.  `storedTextConfigs` models the
`text_track_config()` field stored inside each text stream object,
keyed by stream handle. -/
structure MSState where
  audioStreams : SMap Stream
  videoStreams : SMap Stream
  textStreamMap : SMap Stream
  storedTextConfigs : SMap TextTrackConfig
  expectedAudioCodecs : List Nat
  expectedVideoCodecs : List Nat
  firstInitSegmentReceived : Bool
  state : SBState
  appendInProgress : Bool
deriving DecidableEq

/-- Observable calls made to external collaborators during `OnNewConfigs`. -/
inductive Eff where
  | createStream (kind : StreamKind) (result : Stream)
  | addTrack (id : TrackId) (stream : Stream) (ok : Bool)
  | updateTrack (oldId newId : TrackId)
  | possibleAudioConfigUpdate
  | updateAudioConfig (stream : Stream) (ok : Bool)
  | updateVideoConfig (stream : Stream) (ok : Bool)
  | updateTextConfig (stream : Stream)
  | newTextTrackCb (stream : Stream)
  | setAllTrackBuffersNeedRandomAccessPoint
  | initSegmentReceivedCb
deriving DecidableEq

/-- Classifier for the two commit-point effects of `OnNewConfigs`
(used to state that the track and text loops never emit them). -/
def Eff.isCommit : Eff → Bool
  | .setAllTrackBuffersNeedRandomAccessPoint => true
  | .initSegmentReceivedCb => true
  | _ => false

/-- Outcome of `OnNewConfigs`: a returned boolean, or the `CHECK`
(fatal usage-error) firing. -/
inductive ConfigOutcome where
  | ret (b : Bool)
  | fatal
deriving DecidableEq

/-- Oracles for the external collaborators consulted by `OnNewConfigs`:
the stream factory (indexed by a per-call counter so distinct calls may
return distinct handles), `FrameProcessor::AddTrack` / `UpdateTrack`, and
`ChunkDemuxerStream::UpdateAudioConfig` / `UpdateVideoConfig`. -/
structure Env where
  createStream : StreamKind → Nat → Stream
  addTrackOk : TrackId → Stream → Bool
  updateTrackOk : TrackId → TrackId → Bool
  updateAudioConfigOk : Stream → Nat → Bool
  updateVideoConfigOk : Stream → Nat → Bool

/-- `CheckBytestreamTrackIds` helper: scan ids, tracking those seen. -/
def checkIdsAux : List TrackId → List TrackId → Bool
  | _, [] => true
  | seen, x :: rest => if x ∈ seen then false else checkIdsAux (x :: seen) rest

/-- `CheckBytestreamTrackIds`: `false` iff an identifier repeats across the
combined audio/video/text id space of the proposal. -/
def CheckBytestreamTrackIds (tracks : List ProposedTrack)
    (textConfigs : List (TrackId × TextTrackConfig)) : Bool :=
  checkIdsAux [] (tracks.map (·.bytestreamTrackId) ++ textConfigs.map (·.1))

/-- State threaded through the audio/video track loop of `OnNewConfigs`:
the two stream tables, the local copies of the expected-codec lists, the
running `success` flag, the factory-call counter, and the effect trace. -/
structure LoopSt where
  audioStreams : SMap Stream
  videoStreams : SMap Stream
  expA : List Nat
  expV : List Nat
  success : Bool
  cnt : Nat
  effs : List Eff
deriving DecidableEq

/-- Audio-track stream resolution inside `OnNewConfigs`: creation on the
first init segment (null factory result or `AddTrack` failure yields
`none`, i.e. `return false`), exact lookup when more than one track of the
kind exists, and the single-track identity remap otherwise. -/
def resolveAudioStream (env : Env) (firstInitReceived : Bool) (tid : TrackId)
    (ls : LoopSt) : Option Stream × LoopSt :=
  if ¬ firstInitReceived then
    let stream := env.createStream .audio ls.cnt
    let ls1 := { ls with
      cnt := ls.cnt + 1
      effs := ls.effs ++ [Eff.createStream StreamKind.audio stream] }
    if stream = 0 then (none, ls1)
    else
      let ok := env.addTrackOk tid stream
      let ls2 := { ls1 with effs := ls1.effs ++ [Eff.addTrack tid stream ok] }
      if ¬ ok then (none, ls2)
      else (some stream,
            { ls2 with audioStreams := SMap.insert ls2.audioStreams tid stream })
  else
    if ls.audioStreams.length > 1 then (SMap.find? ls.audioStreams tid, ls)
    else
      match ls.audioStreams with
      | [] => (none, ls)
      | (oldId, s) :: _ =>
        if oldId ≠ tid then
          (some s,
           { ls with
             effs := ls.effs ++ [Eff.updateTrack oldId tid]
             audioStreams := SMap.erase (SMap.insert ls.audioStreams tid s) oldId })
        else (some s, ls)

/-- Video counterpart of `resolveAudioStream`. -/
def resolveVideoStream (env : Env) (firstInitReceived : Bool) (tid : TrackId)
    (ls : LoopSt) : Option Stream × LoopSt :=
  if ¬ firstInitReceived then
    let stream := env.createStream .video ls.cnt
    let ls1 := { ls with
      cnt := ls.cnt + 1
      effs := ls.effs ++ [Eff.createStream StreamKind.video stream] }
    if stream = 0 then (none, ls1)
    else
      let ok := env.addTrackOk tid stream
      let ls2 := { ls1 with effs := ls1.effs ++ [Eff.addTrack tid stream ok] }
      if ¬ ok then (none, ls2)
      else (some stream,
            { ls2 with videoStreams := SMap.insert ls2.videoStreams tid stream })
  else
    if ls.videoStreams.length > 1 then (SMap.find? ls.videoStreams tid, ls)
    else
      match ls.videoStreams with
      | [] => (none, ls)
      | (oldId, s) :: _ =>
        if oldId ≠ tid then
          (some s,
           { ls with
             effs := ls.effs ++ [Eff.updateTrack oldId tid]
             videoStreams := SMap.erase (SMap.insert ls.videoStreams tid s) oldId })
        else (some s, ls)

/-- The `for (const auto& track : tracks->tracks())` loop of `OnNewConfigs`.
The returned `Bool` is `true` when the loop early-returned `false` from
`OnNewConfigs` (codec mismatch, stream-creation failure, unexpected track,
unsupported track type). -/
def processTracks (env : Env) (firstInitReceived : Bool) :
    List ProposedTrack → LoopSt → Bool × LoopSt
  | [], ls => (false, ls)
  | t :: rest, ls =>
    match t.type with
    | .audio =>
      if t.codec ∈ ls.expA then
        let ls1 := { ls with expA := ls.expA.erase t.codec }
        match resolveAudioStream env firstInitReceived t.bytestreamTrackId ls1 with
        | (none, ls2) => (true, ls2)
        | (some stream, ls2) =>
          let ok := env.updateAudioConfigOk stream t.codec
          processTracks env firstInitReceived rest
            { ls2 with
              effs := ls2.effs ++
                [Eff.possibleAudioConfigUpdate, Eff.updateAudioConfig stream ok]
              success := ls2.success && ok }
      else (true, ls)
    | .video =>
      if t.codec ∈ ls.expV then
        let ls1 := { ls with expV := ls.expV.erase t.codec }
        match resolveVideoStream env firstInitReceived t.bytestreamTrackId ls1 with
        | (none, ls2) => (true, ls2)
        | (some stream, ls2) =>
          let ok := env.updateVideoConfigOk stream t.codec
          processTracks env firstInitReceived rest
            { ls2 with
              effs := ls2.effs ++ [Eff.updateVideoConfig stream ok]
              success := ls2.success && ok }
      else (true, ls)
    | .other => (true, ls)

/-- State threaded through the text-track reconciliation. -/
structure TextRes where
  tmap : SMap Stream
  stored : SMap TextTrackConfig
  success : Bool
  cnt : Nat
  effs : List Eff
deriving DecidableEq

/-- First-time text track creation loop (`text_stream_map_.empty()` case).
Note the factory result is used without a null check; only an `AddTrack`
failure stops the loop (`break`) while continuing the function. -/
def createTextTracks (env : Env) :
    List (TrackId × TextTrackConfig) → TextRes → TextRes
  | [], tr => tr
  | (tid, cfg) :: rest, tr =>
    let stream := env.createStream .text tr.cnt
    let tr1 := { tr with
      cnt := tr.cnt + 1
      effs := tr.effs ++ [Eff.createStream StreamKind.text stream] }
    let ok := env.addTrackOk tid stream
    let tr2 := { tr1 with effs := tr1.effs ++ [Eff.addTrack tid stream ok] }
    if ¬ ok then { tr2 with success := tr2.success && false }
    else
      createTextTracks env rest
        { tr2 with
          stored := SMap.insert tr2.stored stream cfg
          tmap := SMap.insert tr2.tmap tid stream
          effs := tr2.effs ++ [Eff.updateTextConfig stream, Eff.newTextTrackCb stream] }

/-- Multi-entry text reconciliation loop: every proposed id must match an
existing entry with an identical stored config; the first deviation breaks
the loop with failure. -/
def checkTextLoop (tmap : SMap Stream) (stored : SMap TextTrackConfig) :
    List (TrackId × TextTrackConfig) → Bool
  | [] => true
  | (tid, cfg) :: rest =>
    match SMap.find? tmap tid with
    | none => false
    | some stream =>
      let oldCfg := (SMap.find? stored stream).getD ⟨0, 0, 0, 0⟩
      if cfg ≠ oldCfg then false else checkTextLoop tmap stored rest

/-- Text reconciliation when text tracks already exist: count must match;
a single track admits an identity remap when the non-id attributes are
unchanged; multiple tracks require exact id and config matches. -/
def reconcileText (env : Env) (texts : List (TrackId × TextTrackConfig))
    (tr : TextRes) : TextRes :=
  if texts.length ≠ tr.tmap.length then { tr with success := tr.success && false }
  else if tr.tmap.length = 1 then
    match texts, tr.tmap with
    | (newId, cfg) :: _, (oldId, stream) :: _ =>
      let oldCfg := (SMap.find? tr.stored stream).getD ⟨0, 0, 0, 0⟩
      let newCfg : TextTrackConfig := ⟨cfg.kind, cfg.label, cfg.language, oldCfg.id⟩
      if newCfg ≠ oldCfg then { tr with success := tr.success && false }
      else if newId ≠ oldId then
        let ok := env.updateTrackOk oldId newId
        let tr1 := { tr with effs := tr.effs ++ [Eff.updateTrack oldId newId] }
        if ok then { tr1 with tmap := [(newId, stream)] }
        else { tr1 with success := tr1.success && false }
      else tr
    | _, _ => tr
  else
    if checkTextLoop tr.tmap tr.stored texts then tr
    else { tr with success := tr.success && false }

/-- Write the loop-local stream tables back into the object state
(the C++ loop mutates the members in place; the expected-codec lists are
local copies and are never written back). -/
def writebackLoop (st : MSState) (ls : LoopSt) : MSState :=
  { st with audioStreams := ls.audioStreams, videoStreams := ls.videoStreams }

/-- Write both the loop-local tables and the text reconciliation results
back into the object state. -/
def writebackAll (st : MSState) (ls : LoopSt) (tr : TextRes) : MSState :=
  { st with
    audioStreams := ls.audioStreams
    videoStreams := ls.videoStreams
    textStreamMap := tr.tmap
    storedTextConfigs := tr.stored }

/-- Commit tail of `OnNewConfigs` (source lines 774-794): the
empty-track-tables check, the unconditional random-access-point marking,
the first-init-segment bookkeeping (`SetStreamMemoryLimits` itself is
configuration fan-out and not modelled), and the success-only state
transition and track-set delivery. -/
def commitConfigs (st1 : MSState) (success : Bool) (effs : List Eff) :
    ConfigOutcome × MSState × List Eff :=
  if st1.audioStreams = [] ∧ st1.videoStreams = [] then (.ret false, st1, effs)
  else
    let effs1 := effs ++ [Eff.setAllTrackBuffersNeedRandomAccessPoint]
    let st2 :=
      if ¬ st1.firstInitSegmentReceived then
        { st1 with firstInitSegmentReceived := true }
      else st1
    if success then
      let st3 :=
        if st2.state = SBState.pendingParserConfig then
          { st2 with state := SBState.pendingParserInit }
        else st2
      (.ret true, st3, effs1 ++ [Eff.initSegmentReceivedCb])
    else (.ret false, st2, effs1)

/-- `MediaSourceState::OnNewConfigs`.  Returns the outcome, the updated
object state, and the trace of collaborator calls.  `MEDIA_LOG` calls are
not modelled. -/
def OnNewConfigs (env : Env) (st : MSState) (tracks : List ProposedTrack)
    (texts : List (TrackId × TextTrackConfig)) :
    ConfigOutcome × MSState × List Eff :=
  if ¬ CheckBytestreamTrackIds tracks texts then (.ret false, st, [])
  else if ¬ st.appendInProgress then (.fatal, st, [])
  else
    let ls0 : LoopSt :=
      ⟨st.audioStreams, st.videoStreams, st.expectedAudioCodecs,
       st.expectedVideoCodecs, true, 0, []⟩
    let pr := processTracks env st.firstInitSegmentReceived tracks ls0
    let ls := pr.2
    if pr.1 then (.ret false, writebackLoop st ls, ls.effs)
    else
      if ls.expA ≠ [] ∨ ls.expV ≠ [] then (.ret false, writebackLoop st ls, ls.effs)
      else
        let tr0 : TextRes :=
          ⟨st.textStreamMap, st.storedTextConfigs, ls.success, ls.cnt, ls.effs⟩
        let tr :=
          if st.textStreamMap = [] then createTextTracks env texts tr0
          else reconcileText env texts tr0
        commitConfigs (writebackAll st ls tr) tr.success tr.effs

/-! ## Proportional eviction coordinator (`EvictCodedFrames`) -/

/-- Oracles for the per-track storage engines consulted by eviction:
each handle's reported buffered byte size, and the result of delegating
`EvictCodedFrames(media_time, bytes)` to a handle. -/
structure EvictEnv where
  bufferedSize : Stream → Nat
  evictOk : Int → Stream → Nat → Bool

/-- Total buffered size summed over the audio, video and text tables. -/
def totalBufferedSize (env : EvictEnv) (st : MSState) : Nat :=
  let t1 := st.audioStreams.foldl (fun acc p => acc + env.bufferedSize p.2) 0
  let t2 := st.videoStreams.foldl (fun acc p => acc + env.bufferedSize p.2) t1
  st.textStreamMap.foldl (fun acc p => acc + env.bufferedSize p.2) t2

/-- One `for` loop of `EvictCodedFrames` over one stream table: tracks with
zero buffered size are skipped; others are delegated
`newDataSize * curr_size / total` bytes and their results ANDed in.
`calls` records every delegated `(handle, bytes)` pair in order. -/
def evictStreams (env : EvictEnv) (mt : Int) (newDataSize total : Nat) :
    SMap Stream → Bool → List (Stream × Nat) → Bool × List (Stream × Nat)
  | [], success, calls => (success, calls)
  | p :: rest, success, calls =>
    let curr := env.bufferedSize p.2
    if curr = 0 then evictStreams env mt newDataSize total rest success calls
    else
      let target := newDataSize * curr / total
      let ok := env.evictOk mt p.2 target
      evictStreams env mt newDataSize total rest (success && ok)
        (calls ++ [(p.2, target)])

/-- `MediaSourceState::EvictCodedFrames`: proportional apportioning of the
incoming byte budget over all tracks.  Returns the overall result and the
list of delegated per-track eviction calls. -/
def EvictCodedFrames (env : EvictEnv) (st : MSState) (mt : Int)
    (newDataSize : Nat) : Bool × List (Stream × Nat) :=
  let total := totalBufferedSize env st
  if total = 0 then (true, [])
  else
    let r1 := evictStreams env mt newDataSize total st.audioStreams true []
    let r2 := evictStreams env mt newDataSize total st.videoStreams r1.1 r1.2
    evictStreams env mt newDataSize total st.textStreamMap r2.1 r2.2

/-! ## Frame-batch delivery (`OnNewBuffers`) -/

/-- One coded frame (`StreamParserBuffer`): timestamp and duration. -/
structure Buffer where
  timestamp : Int
  duration : Int
deriving DecidableEq

/-- `StreamParser::BufferQueue`; nonempty by a `DCHECK` in the source. -/
abbrev BufferQueue := List Buffer

/-- `EndTimestamp(queue)`: last buffer's timestamp plus duration
(the source indexes `queue.back()`, a `DCHECK` guarantees nonemptiness). -/
def EndTimestamp (q : BufferQueue) : Int :=
  match q.getLast? with
  | some b => b.timestamp + b.duration
  | none => 0

/-- One step of the `min_end_timestamp` loop of `OnNewBuffers`:
`kNoTimestamp` (the unset sentinel) is modelled as `none`. -/
def minEndStep (acc : Option Int) (p : TrackId × BufferQueue) : Option Int :=
  match acc with
  | none => some (EndTimestamp p.2)
  | some v => if EndTimestamp p.2 < v then some (EndTimestamp p.2) else some v

/-- The `min_end_timestamp` computation of `OnNewBuffers`. -/
def minEndTimestamp (m : List (TrackId × BufferQueue)) : Option Int :=
  m.foldl minEndStep none

/-- `MediaSourceState::OnNewBuffers`, restricted to its return value and the
timestamp-offset cell.  `fpOk` and `fpOffsetAfter` are the oracle for
`FrameProcessor::ProcessFrames`: whether it succeeds, and the value it
leaves in the offset cell.  The segment-presence bookkeeping writes
`media_segment_has_data_for_track_` only and is not modelled here. -/
def OnNewBuffers (autoUpdateTimestampOffset : Bool) (offsetBefore : Int)
    (fpOk : Bool) (fpOffsetAfter : Int)
    (m : List (TrackId × BufferQueue)) : Bool × Int :=
  let newTimestampOffset :=
    if autoUpdateTimestampOffset then
      match minEndTimestamp m with
      | some v => offsetBefore + v
      | none => offsetBefore
    else offsetBefore
  if ¬ fpOk then (false, fpOffsetAfter)
  else if autoUpdateTimestampOffset ∧ offsetBefore = fpOffsetAfter then
    (true, newTimestampOffset)
  else (true, fpOffsetAfter)

/-! ## Buffered-range intersection (`ComputeRangesIntersection`)

`Ranges<TimeDelta>` (media/base/ranges.h) is not part of this repository
snapshot; per the spec it is an ordered, disjoint set of `[start, end)`
time intervals. -/

/-- Modelled from the spec: one `[start, end)` interval of a
`Ranges<TimeDelta>` object (`media/base/ranges.h` is not under src/). -/
abbrev Interval := Int × Int

/-- `t` lies in the interval `p = [p.1, p.2)`. -/
def memI (t : Int) (p : Interval) : Prop := p.1 ≤ t ∧ t < p.2

/-- `t` lies in some interval of the range set. -/
def memR (t : Int) (l : List Interval) : Prop := ∃ p ∈ l, memI t p

/-- Modelled from the spec: intersection of two single intervals, empty
results dropped (part of `Ranges::IntersectionWith`, which is not under
src/; the spec calls it standard set intersection over ordered
disjoint intervals). -/
def intervalInter (A B : Interval) : Option Interval :=
  if max A.1 B.1 < min A.2 B.2 then some (max A.1 B.1, min A.2 B.2) else none

/-- Modelled from the spec: `Ranges::IntersectionWith` as standard set
intersection of two disjoint-interval sets (the class itself is not under
src/): all pairwise interval intersections, in order. -/
def rangesInter (a b : List Interval) : List Interval :=
  a.flatMap (fun A => b.filterMap (fun B => intervalInter A B))

/-- `range.end(range.size() - 1)`: the last interval's end (0 if empty,
matching the default-initialized `TimeDelta` the caller folds from). -/
def lastEnd (l : List Interval) : Int :=
  match l.getLast? with
  | some p => p.2
  | none => 0

/-- Modelled from the spec: the `ended` extension
`source_ranges.Add(source_ranges.start(size - 1), highest_end_time)`,
which extends the last interval's end to the highest end time
(`Ranges::Add` is not under src/; on `[last.start, h)` it can only merge
into the last interval). -/
def extendLast (h : Int) : List Interval → List Interval
  | [] => []
  | [p] => [(p.1, max p.2 h)]
  | p :: q :: t => p :: extendLast h (q :: t)

/-- Step 3 of `ComputeRangesIntersection`: the largest last-range end time
over the non-empty range sets, folded from a default `TimeDelta()` (0). -/
def highestEnd (l : List (List Interval)) : Int :=
  l.foldl (fun acc r => if r.isEmpty then acc else max acc (lastEnd r)) 0

/-- `MediaSourceState::ComputeRangesIntersection`: MSE
`HTMLMediaElement.buffered` intersection over the active tracks' range
sets.  The seed `Add(TimeDelta(), highest_end_time)` yields `[0, h)`,
empty when `h = 0`. -/
def ComputeRangesIntersection (activeRanges : List (List Interval))
    (ended : Bool) : List Interval :=
  if activeRanges.isEmpty then []
  else
    let h := highestEnd activeRanges
    let seed : List Interval := if 0 < h then [(0, h)] else []
    activeRanges.foldl
      (fun acc r => rangesInter acc (if ended && !r.isEmpty then extendLast h r else r))
      seed

/-- Well-formedness invariant of a `Ranges` object: nonempty intervals,
strictly separated in increasing order. -/
def wfR (l : List Interval) : Prop :=
  (∀ p ∈ l, p.1 < p.2) ∧ l.Pairwise (fun p q => p.2 < q.1)

instance (t : Int) (p : Interval) : Decidable (memI t p) :=
  inferInstanceAs (Decidable (p.1 ≤ t ∧ t < p.2))

instance (t : Int) (l : List Interval) : Decidable (memR t l) :=
  inferInstanceAs (Decidable (∃ p ∈ l, memI t p))

instance (l : List Interval) : Decidable (wfR l) :=
  inferInstanceAs (Decidable ((∀ p ∈ l, p.1 < p.2) ∧ l.Pairwise _))

/-! ## Theorems: proportional eviction (claims about `EvictCodedFrames`) -/

/-- Characterization of one eviction loop: the delegated calls are exactly
the non-zero-size tracks in order with truncated proportional targets, and
the running success flag is ANDed with every delegated result. -/
theorem evictStreams_eq (env : EvictEnv) (mt : Int) (R total : Nat) :
    ∀ (m : SMap Stream) (s : Bool) (c : List (Stream × Nat)),
    evictStreams env mt R total m s c =
      (s && ((m.filter (fun p => env.bufferedSize p.2 != 0)).map
          (fun p => ((p.2 : Stream), R * env.bufferedSize p.2 / total))).all
          (fun q => env.evictOk mt q.1 q.2),
       c ++ (m.filter (fun p => env.bufferedSize p.2 != 0)).map
          (fun p => ((p.2 : Stream), R * env.bufferedSize p.2 / total))) := by
  intro m
  induction m with
  | nil => intro s c; simp [evictStreams]
  | cons p rest ih =>
    intro s c
    by_cases h : env.bufferedSize p.2 = 0
    · simp [evictStreams, h, ih]
    · simp [evictStreams, h, ih, Bool.and_assoc]

/-- `totalBufferedSize` as a sum over the concatenation of the three
stream tables. -/
theorem foldl_add_bufferedSize (f : Stream × Stream → Nat) :
    ∀ (l : List (Stream × Stream)) (n : Nat),
    l.foldl (fun acc p => acc + f p) n = n + (l.map f).sum := by
  intro l
  induction l with
  | nil => intro n; simp
  | cons p rest ih => intro n; simp [ih, Nat.add_assoc]

/-- `totalBufferedSize` equals the sum of buffered sizes over the
concatenated audio, video and text tables. -/
theorem totalBufferedSize_eq (env : EvictEnv) (st : MSState) :
    totalBufferedSize env st =
      (((st.audioStreams ++ st.videoStreams ++ st.textStreamMap).map
        (fun p => env.bufferedSize p.2)).sum) := by
  simp [totalBufferedSize, foldl_add_bufferedSize, Nat.add_assoc]

/-- C3 (claim): behaviour of the eviction coordinator.  With zero total
buffered size it succeeds with no delegated call; otherwise the delegated
calls are exactly one call of `floor(R * s / total)` bytes per track with
buffered size `s > 0` (zero-size tracks are skipped), every such track is
attempted regardless of earlier failures, and the overall result is the
AND of all delegated results. -/
theorem evictCodedFrames_proportional_spec (env : EvictEnv) (st : MSState)
    (mt : Int) (R : Nat) :
    (totalBufferedSize env st = 0 → EvictCodedFrames env st mt R = (true, [])) ∧
    (totalBufferedSize env st ≠ 0 →
      (EvictCodedFrames env st mt R).2 =
        (((st.audioStreams ++ st.videoStreams ++ st.textStreamMap).filter
            (fun p => env.bufferedSize p.2 != 0)).map
          (fun p => ((p.2 : Stream),
            R * env.bufferedSize p.2 / totalBufferedSize env st))) ∧
      (EvictCodedFrames env st mt R).1 =
        ((EvictCodedFrames env st mt R).2.all
          (fun q => env.evictOk mt q.1 q.2)) ∧
      (∀ q ∈ (EvictCodedFrames env st mt R).2, env.bufferedSize q.1 ≠ 0)) := by
  constructor
  · intro h
    simp [EvictCodedFrames, h]
  · intro h
    have h2 :
        (EvictCodedFrames env st mt R).2 =
        (((st.audioStreams ++ st.videoStreams ++ st.textStreamMap).filter
            (fun p => env.bufferedSize p.2 != 0)).map
          (fun p => ((p.2 : Stream),
            R * env.bufferedSize p.2 / totalBufferedSize env st))) := by
      simp [EvictCodedFrames, h, evictStreams_eq]
    refine ⟨h2, ?_, ?_⟩
    · rw [h2]
      simp [EvictCodedFrames, h, evictStreams_eq, Bool.and_assoc]
    · intro q hq
      rw [h2] at hq
      simp only [List.mem_map, List.mem_filter] at hq
      obtain ⟨p, ⟨hp, hp0⟩, rfl⟩ := hq
      simpa using hp0

/-- C3 witness: the spec's worked example — buffered sizes 100/200/0,
budget 30 against total 300 gives delegated calls of 10 and 20 bytes and
an overall success that ANDs the two delegated results. -/
theorem evictCodedFrames_proportional_spec_witness :
    (EvictCodedFrames ⟨fun s => s, fun _ _ _ => true⟩
      ⟨[(1, 100)], [(2, 200)], [(3, 0)], [], [], [], true,
       SBState.parserInitialized, false⟩ 0 30).2 = [(100, 10), (200, 20)] := by
  have h := (evictCodedFrames_proportional_spec ⟨fun s => s, fun _ _ _ => true⟩
      ⟨[(1, 100)], [(2, 200)], [(3, 0)], [], [], [], true,
       SBState.parserInitialized, false⟩ 0 30).2 (by decide)
  rw [h.1]
  decide

/-- Truncated division is superadditive on numerators. -/
theorem add_div_le_div_nat (a b c : Nat) : a / c + b / c ≤ (a + b) / c := by
  rcases Nat.eq_zero_or_pos c with hc | hc
  · simp [hc]
  · rw [Nat.le_div_iff_mul_le hc, Nat.add_mul]
    exact Nat.add_le_add (Nat.div_mul_le_self a c) (Nat.div_mul_le_self b c)

/-- Sum of truncated proportional shares is at most the share of the sum. -/
theorem sum_div_le (R T : Nat) :
    ∀ (l : List Nat), ((l.map (fun s => R * s / T)).sum ≤ R * l.sum / T) := by
  intro l
  induction l with
  | nil => simp
  | cons s rest ih =>
    simp only [List.map_cons, List.sum_cons]
    calc R * s / T + ((rest.map (fun s => R * s / T)).sum)
        ≤ R * s / T + R * rest.sum / T := Nat.add_le_add_left ih _
      _ ≤ (R * s + R * rest.sum) / T := add_div_le_div_nat _ _ _
      _ = R * (s + rest.sum) / T := by rw [Nat.mul_add]

/-- Dropping zero-size tracks does not change the sum of targets. -/
theorem sum_filter_targets (env : EvictEnv) (R T : Nat) :
    ∀ (l : List (Stream × Stream)),
    (((l.filter (fun p => env.bufferedSize p.2 != 0)).map
        (fun p => R * env.bufferedSize p.2 / T)).sum) =
      ((l.map (fun p => R * env.bufferedSize p.2 / T)).sum) := by
  intro l
  induction l with
  | nil => simp
  | cons p rest ih =>
    by_cases h : env.bufferedSize p.2 = 0
    · simp [h, ih]
    · simp [h, ih]

/-- C9 (claim): with positive total buffered size the per-track eviction
targets sum to at most the requested size `R` (and the coordinator
delegates exactly those truncated amounts, so the shortfall is not
corrected); for some inputs the sum is strictly below `R`. -/
theorem evictTargets_sum_le :
    (∀ (env : EvictEnv) (st : MSState) (mt : Int) (R : Nat),
      totalBufferedSize env st ≠ 0 →
      ((EvictCodedFrames env st mt R).2.map (fun q => q.2)).sum ≤ R) ∧
    ((EvictCodedFrames ⟨fun s => s, fun _ _ _ => true⟩
      ⟨[(1, 1), (2, 1)], [], [], [], [], [], true,
       SBState.parserInitialized, false⟩ 0 1).2.map (fun q => q.2)).sum < 1 := by
  constructor
  · intro env st mt R h
    have h2 := ((evictCodedFrames_proportional_spec env st mt R).2 h).1
    rw [h2, List.map_map]
    have hT : 0 < totalBufferedSize env st := Nat.pos_of_ne_zero h
    calc ((((st.audioStreams ++ st.videoStreams ++ st.textStreamMap).filter
            (fun p => env.bufferedSize p.2 != 0)).map
            ((fun q => q.2) ∘ (fun p => ((p.2 : Stream),
              R * env.bufferedSize p.2 / totalBufferedSize env st)))).sum)
        = (((st.audioStreams ++ st.videoStreams ++ st.textStreamMap).filter
            (fun p => env.bufferedSize p.2 != 0)).map
            (fun p => R * env.bufferedSize p.2 / totalBufferedSize env st)).sum := by
          rfl
      _ = (((st.audioStreams ++ st.videoStreams ++ st.textStreamMap).map
            (fun p => R * env.bufferedSize p.2 / totalBufferedSize env st)).sum) :=
          sum_filter_targets env R (totalBufferedSize env st) _
      _ = ((((st.audioStreams ++ st.videoStreams ++ st.textStreamMap).map
            (fun p => env.bufferedSize p.2)).map
            (fun s => R * s / totalBufferedSize env st)).sum) := by
          rw [List.map_map]
          rfl
      _ ≤ R * (((st.audioStreams ++ st.videoStreams ++ st.textStreamMap).map
            (fun p => env.bufferedSize p.2)).sum) / totalBufferedSize env st :=
          sum_div_le R (totalBufferedSize env st) _
      _ = R * totalBufferedSize env st / totalBufferedSize env st := by
          rw [totalBufferedSize_eq]
      _ = R := Nat.mul_div_cancel R hT
  · decide

/-- C9 witness: the general bound applied at the strict-shortfall input —
two one-byte tracks and a one-byte budget: targets sum to 0 ≤ 1. -/
theorem evictTargets_sum_le_witness :
    ((EvictCodedFrames ⟨fun s => s, fun _ _ _ => true⟩
      ⟨[(1, 1), (2, 1)], [], [], [], [], [], true,
       SBState.parserInitialized, false⟩ 0 1).2.map (fun q => q.2)).sum ≤ 1 :=
  evictTargets_sum_le.1 ⟨fun s => s, fun _ _ _ => true⟩
    ⟨[(1, 1), (2, 1)], [], [], [], [], [], true,
     SBState.parserInitialized, false⟩ 0 1 (by decide)

/-! ## Theorems: frame-batch delivery (`OnNewBuffers`) -/

/-- The `min_end_timestamp` fold computes a minimum: seeded with `a`, it
stays defined, is a lower bound of `a` and of every batch end, and is
attained. -/
theorem minEndStep_fold_spec :
    ∀ (m : List (TrackId × BufferQueue)) (a : Int),
    ∃ v, m.foldl minEndStep (some a) = some v ∧ v ≤ a ∧
      (∀ p ∈ m, v ≤ EndTimestamp p.2) ∧
      (v = a ∨ ∃ p ∈ m, EndTimestamp p.2 = v) := by
  intro m
  induction m with
  | nil => intro a; exact ⟨a, rfl, le_refl a, by simp, Or.inl rfl⟩
  | cons q rest ih =>
    intro a
    by_cases h : EndTimestamp q.2 < a
    · obtain ⟨v, hv, hva, hub, hat⟩ := ih (EndTimestamp q.2)
      refine ⟨v, ?_, hva.trans h.le, ?_, ?_⟩
      · simpa [minEndStep, h] using hv
      · intro p hp
        rcases List.mem_cons.1 hp with rfl | hp
        · exact hva
        · exact hub p hp
      · rcases hat with rfl | ⟨p, hp, hpe⟩
        · exact Or.inr ⟨q, List.mem_cons_self q rest, rfl⟩
        · exact Or.inr ⟨p, List.mem_cons_of_mem q hp, hpe⟩
    · obtain ⟨v, hv, hva, hub, hat⟩ := ih a
      refine ⟨v, ?_, hva, ?_, ?_⟩
      · simpa [minEndStep, h] using hv
      · intro p hp
        rcases List.mem_cons.1 hp with rfl | hp
        · exact le_trans hva (not_lt.1 h)
        · exact hub p hp
      · rcases hat with rfl | ⟨p, hp, hpe⟩
        · exact Or.inl rfl
        · exact Or.inr ⟨p, List.mem_cons_of_mem q hp, hpe⟩

/-- C4 (claim): with automatic offset updating enabled and a successful
`ProcessFrames`, the minimum end timestamp `v` over the delivered batches
is computed before processing, and afterwards the offset cell is advanced
by `v` exactly when the frame processor left the cell's value unchanged;
otherwise the cell keeps the frame processor's value — exactly one
offset-advancement mechanism applies per delivery. -/
theorem onNewBuffers_auto_offset_spec (before fpAfter : Int)
    (m : List (TrackId × BufferQueue)) (hne : m ≠ []) :
    ∃ v, minEndTimestamp m = some v ∧
      (∀ p ∈ m, v ≤ EndTimestamp p.2) ∧
      (∃ p ∈ m, EndTimestamp p.2 = v) ∧
      (before = fpAfter →
        OnNewBuffers true before true fpAfter m = (true, before + v)) ∧
      (before ≠ fpAfter →
        OnNewBuffers true before true fpAfter m = (true, fpAfter)) := by
  match m, hne with
  | q :: rest, _ =>
    obtain ⟨v, hv, hva, hub, hat⟩ := minEndStep_fold_spec rest (EndTimestamp q.2)
    have hmin : minEndTimestamp (q :: rest) = some v := by
      simpa [minEndTimestamp, minEndStep] using hv
    refine ⟨v, hmin, ?_, ?_, ?_, ?_⟩
    · intro p hp
      rcases List.mem_cons.1 hp with rfl | hp
      · exact hva
      · exact hub p hp
    · rcases hat with rfl | ⟨p, hp, hpe⟩
      · exact ⟨q, List.mem_cons_self q rest, rfl⟩
      · exact ⟨p, List.mem_cons_of_mem q hp, hpe⟩
    · intro h
      simp [OnNewBuffers, hmin, h]
    · intro h
      simp [OnNewBuffers, hmin, h]

/-- C4 witness: the spec's example — batches ending at 5 and 7, frame
processor leaves the cell unchanged, so the offset advances by exactly 5. -/
theorem onNewBuffers_auto_offset_spec_witness :
    OnNewBuffers true 0 true 0 [(1, [⟨2, 3⟩]), (2, [⟨3, 4⟩])] = (true, 0 + 5) := by
  obtain ⟨v, hv, _, _, h1, _⟩ :=
    onNewBuffers_auto_offset_spec 0 0 [(1, [⟨2, 3⟩]), (2, [⟨3, 4⟩])] (by decide)
  have hv5 : v = 5 := by
    have : (some v : Option Int) = some 5 := by rw [← hv]; decide
    simpa using this
  rw [← hv5]
  exact h1 rfl

/-! ## Theorems: track negotiation (`OnNewConfigs`) -/

/-- A commit-point effect found in an append whose suffix holds only
non-commit effects must come from the prefix. -/
theorem commit_mem_of_append {e : Eff} {l1 l2 : List Eff}
    (he : e ∈ l1 ++ l2) (hc : e.isCommit = true)
    (h2 : ∀ x ∈ l2, x.isCommit = false) : e ∈ l1 := by
  rcases List.mem_append.1 he with h | h
  · exact h
  · rw [h2 e h] at hc
    cases hc

/-- The audio stream-resolution step emits no commit-point effect. -/
theorem resolveAudioStream_commit_effs (env : Env) (fi : Bool) (tid : TrackId)
    (ls : LoopSt) :
    ∀ e ∈ (resolveAudioStream env fi tid ls).2.effs,
      e.isCommit = true → e ∈ ls.effs := by
  intro e he hc
  simp only [resolveAudioStream] at he
  repeat' split at he
  all_goals first
    | exact he
    | exact commit_mem_of_append he hc (by simp [Eff.isCommit])
    | exact commit_mem_of_append
        (commit_mem_of_append he hc (by simp [Eff.isCommit])) hc
        (by simp [Eff.isCommit])

/-- The video stream-resolution step emits no commit-point effect. -/
theorem resolveVideoStream_commit_effs (env : Env) (fi : Bool) (tid : TrackId)
    (ls : LoopSt) :
    ∀ e ∈ (resolveVideoStream env fi tid ls).2.effs,
      e.isCommit = true → e ∈ ls.effs := by
  intro e he hc
  simp only [resolveVideoStream] at he
  repeat' split at he
  all_goals first
    | exact he
    | exact commit_mem_of_append he hc (by simp [Eff.isCommit])
    | exact commit_mem_of_append
        (commit_mem_of_append he hc (by simp [Eff.isCommit])) hc
        (by simp [Eff.isCommit])

/-- The audio/video track loop emits no commit-point effect. -/
theorem processTracks_commit_effs (env : Env) (fi : Bool) :
    ∀ (l : List ProposedTrack) (ls : LoopSt),
    ∀ e ∈ (processTracks env fi l ls).2.effs, e.isCommit = true → e ∈ ls.effs := by
  intro l
  induction l with
  | nil => intro ls e he hc; simpa [processTracks] using he
  | cons t rest ih =>
    intro ls e he hc
    simp only [processTracks] at he
    split at he
    · split at he
      · rcases hra : resolveAudioStream env fi t.bytestreamTrackId
            { ls with expA := ls.expA.erase t.codec } with ⟨os, ls2⟩
        rw [hra] at he
        cases os with
        | none =>
          simp only at he
          have := resolveAudioStream_commit_effs env fi t.bytestreamTrackId
            { ls with expA := ls.expA.erase t.codec } e (by rw [hra]; exact he) hc
          simpa using this
        | some stream =>
          simp only at he
          have h2 := ih _ e he hc
          have h3 := commit_mem_of_append h2 hc (by simp [Eff.isCommit])
          have := resolveAudioStream_commit_effs env fi t.bytestreamTrackId
            { ls with expA := ls.expA.erase t.codec } e (by rw [hra]; exact h3) hc
          simpa using this
      · exact he
    · split at he
      · rcases hrv : resolveVideoStream env fi t.bytestreamTrackId
            { ls with expV := ls.expV.erase t.codec } with ⟨os, ls2⟩
        rw [hrv] at he
        cases os with
        | none =>
          simp only at he
          have := resolveVideoStream_commit_effs env fi t.bytestreamTrackId
            { ls with expV := ls.expV.erase t.codec } e (by rw [hrv]; exact he) hc
          simpa using this
        | some stream =>
          simp only at he
          have h2 := ih _ e he hc
          have h3 := commit_mem_of_append h2 hc (by simp [Eff.isCommit])
          have := resolveVideoStream_commit_effs env fi t.bytestreamTrackId
            { ls with expV := ls.expV.erase t.codec } e (by rw [hrv]; exact h3) hc
          simpa using this
      · exact he
    · exact he

/-- The text-track creation loop emits no commit-point effect. -/
theorem createTextTracks_commit_effs (env : Env) :
    ∀ (l : List (TrackId × TextTrackConfig)) (tr : TextRes),
    ∀ e ∈ (createTextTracks env l tr).effs, e.isCommit = true → e ∈ tr.effs := by
  intro l
  induction l with
  | nil => intro tr e he hc; simpa [createTextTracks] using he
  | cons p rest ih =>
    intro tr e he hc
    rcases p with ⟨tid, cfg⟩
    simp only [createTextTracks] at he
    split at he
    · exact commit_mem_of_append
        (commit_mem_of_append he hc (by simp [Eff.isCommit])) hc
        (by simp [Eff.isCommit])
    · have h2 := ih _ e he hc
      have h3 : e ∈ tr.effs ++
          [Eff.createStream StreamKind.text (env.createStream StreamKind.text tr.cnt),
           Eff.addTrack tid (env.createStream StreamKind.text tr.cnt)
             (env.addTrackOk tid (env.createStream StreamKind.text tr.cnt)),
           Eff.updateTextConfig (env.createStream StreamKind.text tr.cnt),
           Eff.newTextTrackCb (env.createStream StreamKind.text tr.cnt)] := by
        simpa [List.append_assoc] using h2
      exact commit_mem_of_append h3 hc (by simp [Eff.isCommit])

/-- The text reconciliation path emits no commit-point effect. -/
theorem reconcileText_commit_effs (env : Env)
    (l : List (TrackId × TextTrackConfig)) (tr : TextRes) :
    ∀ e ∈ (reconcileText env l tr).effs, e.isCommit = true → e ∈ tr.effs := by
  intro e he hc
  simp only [reconcileText] at he
  repeat' split at he
  all_goals first
    | exact he
    | exact commit_mem_of_append he hc (by simp [Eff.isCommit])

/-- Commit-tail characterization: on a `ret false` outcome the state field
is unchanged and no delivery callback was emitted (given none was in the
incoming trace); on `ret true` the delivery and random-access-point
effects are present and the state makes the first-acceptance transition;
the commit tail never aborts. -/
theorem commitConfigs_spec (st1 : MSState) (success : Bool) (effs : List Eff)
    (hni : Eff.initSegmentReceivedCb ∉ effs) :
    ((commitConfigs st1 success effs).1 = ConfigOutcome.ret false →
      (commitConfigs st1 success effs).2.1.state = st1.state ∧
      Eff.initSegmentReceivedCb ∉ (commitConfigs st1 success effs).2.2) ∧
    ((commitConfigs st1 success effs).1 = ConfigOutcome.ret true →
      Eff.initSegmentReceivedCb ∈ (commitConfigs st1 success effs).2.2 ∧
      Eff.setAllTrackBuffersNeedRandomAccessPoint ∈
        (commitConfigs st1 success effs).2.2 ∧
      (commitConfigs st1 success effs).2.1.state =
        (if st1.state = SBState.pendingParserConfig then SBState.pendingParserInit
         else st1.state)) ∧
    ((commitConfigs st1 success effs).1 ≠ ConfigOutcome.fatal) := by
  generalize hr : commitConfigs st1 success effs = r
  simp only [commitConfigs] at hr
  split at hr
  · subst hr
    exact ⟨fun _ => ⟨rfl, hni⟩, fun h => by simp at h, by simp⟩
  · split at hr
    · split at hr
      · split at hr
        · subst hr
          refine ⟨fun h => by simp at h, fun _ => ⟨by simp, by simp, ?_⟩, by simp⟩
          simp_all
        · subst hr
          refine ⟨fun h => by simp at h, fun _ => ⟨by simp, by simp, ?_⟩, by simp⟩
          simp_all
      · split at hr
        · subst hr
          refine ⟨fun h => by simp at h, fun _ => ⟨by simp, by simp, ?_⟩, by simp⟩
          simp_all
        · subst hr
          refine ⟨fun h => by simp at h, fun _ => ⟨by simp, by simp, ?_⟩, by simp⟩
          simp_all
    · split at hr
      · subst hr
        refine ⟨fun _ => ⟨by simp, ?_⟩, fun h => by simp at h, by simp⟩
        intro hmem
        rcases List.mem_append.1 hmem with hx | hx
        · exact hni hx
        · simp at hx
      · subst hr
        refine ⟨fun _ => ⟨by simp, ?_⟩, fun h => by simp at h, by simp⟩
        intro hmem
        rcases List.mem_append.1 hmem with hx | hx
        · exact hni hx
        · simp at hx

/-- C1 (amended): the first-acceptance state transition
(`PENDING_PARSER_CONFIG` to `PENDING_PARSER_INIT`) and the delivery of the
finalized track set to the track-discovery collaborator happen only when
the negotiation returns success, and on failure the state-machine state is
unchanged; the random-access-point marking, however, is emitted on every
call that reaches the commit point, so on success it is always present but
it is not exclusive to success. -/
theorem onNewConfigs_commit_state_spec (env : Env) (st : MSState)
    (tracks : List ProposedTrack) (texts : List (TrackId × TextTrackConfig)) :
    ((OnNewConfigs env st tracks texts).1 = ConfigOutcome.ret false →
      (OnNewConfigs env st tracks texts).2.1.state = st.state ∧
      Eff.initSegmentReceivedCb ∉ (OnNewConfigs env st tracks texts).2.2) ∧
    ((OnNewConfigs env st tracks texts).1 = ConfigOutcome.ret true →
      Eff.initSegmentReceivedCb ∈ (OnNewConfigs env st tracks texts).2.2 ∧
      Eff.setAllTrackBuffersNeedRandomAccessPoint ∈
        (OnNewConfigs env st tracks texts).2.2 ∧
      (OnNewConfigs env st tracks texts).2.1.state =
        (if st.state = SBState.pendingParserConfig then SBState.pendingParserInit
         else st.state)) ∧
    ((OnNewConfigs env st tracks texts).1 = ConfigOutcome.fatal →
      (OnNewConfigs env st tracks texts).2 = (st, [])) := by
  have hLs : Eff.initSegmentReceivedCb ∉
      (processTracks env st.firstInitSegmentReceived tracks
        ⟨st.audioStreams, st.videoStreams, st.expectedAudioCodecs,
         st.expectedVideoCodecs, true, 0, []⟩).2.effs := by
    intro hmem
    simpa using processTracks_commit_effs env st.firstInitSegmentReceived tracks
      _ _ hmem rfl
  generalize hr : OnNewConfigs env st tracks texts = r
  simp only [OnNewConfigs] at hr
  split at hr
  · subst hr
    exact ⟨fun _ => ⟨rfl, by simp⟩, fun h => by simp at h, fun h => by simp at h⟩
  · split at hr
    · subst hr
      exact ⟨fun h => by simp at h, fun h => by simp at h, fun _ => rfl⟩
    · split at hr
      · subst hr
        exact ⟨fun _ => ⟨by simp [writebackLoop], hLs⟩,
          fun h => by simp at h, fun h => by simp at h⟩
      · split at hr
        · subst hr
          exact ⟨fun _ => ⟨by simp [writebackLoop], hLs⟩,
            fun h => by simp at h, fun h => by simp at h⟩
        · split at hr
          · -- text creation branch (text_stream_map_ was empty)
            subst hr
            set LS := (processTracks env st.firstInitSegmentReceived tracks
              ⟨st.audioStreams, st.videoStreams, st.expectedAudioCodecs,
               st.expectedVideoCodecs, true, 0, []⟩).2 with hLSdef
            set TR := createTextTracks env texts
              ⟨st.textStreamMap, st.storedTextConfigs, LS.success, LS.cnt,
               LS.effs⟩ with hTRdef
            have hTr : Eff.initSegmentReceivedCb ∉ TR.effs := by
              rw [hTRdef]
              intro hmem
              exact hLs (createTextTracks_commit_effs env texts _ _ hmem rfl)
            have hc := commitConfigs_spec (writebackAll st LS TR) TR.success
              TR.effs hTr
            refine ⟨fun h => ?_, fun h => ?_, fun h => absurd h hc.2.2⟩
            · obtain ⟨h1, h2⟩ := hc.1 h
              exact ⟨by simpa [writebackAll] using h1, h2⟩
            · obtain ⟨h1, h2, h3⟩ := hc.2.1 h
              exact ⟨h1, h2, by simpa [writebackAll] using h3⟩
          · -- text reconciliation branch
            subst hr
            set LS := (processTracks env st.firstInitSegmentReceived tracks
              ⟨st.audioStreams, st.videoStreams, st.expectedAudioCodecs,
               st.expectedVideoCodecs, true, 0, []⟩).2 with hLSdef
            set TR := reconcileText env texts
              ⟨st.textStreamMap, st.storedTextConfigs, LS.success, LS.cnt,
               LS.effs⟩ with hTRdef
            have hTr : Eff.initSegmentReceivedCb ∉ TR.effs := by
              rw [hTRdef]
              intro hmem
              exact hLs (reconcileText_commit_effs env texts _ _ hmem rfl)
            have hc := commitConfigs_spec (writebackAll st LS TR) TR.success
              TR.effs hTr
            refine ⟨fun h => ?_, fun h => ?_, fun h => absurd h hc.2.2⟩
            · obtain ⟨h1, h2⟩ := hc.1 h
              exact ⟨by simpa [writebackAll] using h1, h2⟩
            · obtain ⟨h1, h2, h3⟩ := hc.2.1 h
              exact ⟨h1, h2, by simpa [writebackAll] using h3⟩

/-- C1 counterexample: a negotiation that returns failure (audio config
update rejected) yet still emits the random-access-point marking — the
marking is not exclusive to successful negotiations. -/
theorem onNewConfigs_rap_on_failure_cex :
    (OnNewConfigs
      ⟨fun _ _ => 7, fun _ _ => true, fun _ _ => true, fun _ _ => false,
       fun _ _ => true⟩
      ⟨[(1, 7)], [], [], [], [3], [], true, SBState.parserInitialized, true⟩
      [⟨MediaTrackType.audio, 1, 3⟩] []).1 = ConfigOutcome.ret false ∧
    Eff.setAllTrackBuffersNeedRandomAccessPoint ∈
      (OnNewConfigs
        ⟨fun _ _ => 7, fun _ _ => true, fun _ _ => true, fun _ _ => false,
         fun _ _ => true⟩
        ⟨[(1, 7)], [], [], [], [3], [], true, SBState.parserInitialized, true⟩
        [⟨MediaTrackType.audio, 1, 3⟩] []).2.2 := by
  constructor
  · decide
  · decide

/-- C1 witness: a successful later-segment negotiation delivers the track
set, marks random-access points, and performs no state transition (state
already past `PENDING_PARSER_CONFIG`). -/
theorem onNewConfigs_commit_state_witness :
    Eff.initSegmentReceivedCb ∈
      (OnNewConfigs
        ⟨fun _ _ => 7, fun _ _ => true, fun _ _ => true, fun _ _ => true,
         fun _ _ => true⟩
        ⟨[(1, 7)], [], [], [], [3], [], true, SBState.parserInitialized, true⟩
        [⟨MediaTrackType.audio, 1, 3⟩] []).2.2 ∧
    Eff.setAllTrackBuffersNeedRandomAccessPoint ∈
      (OnNewConfigs
        ⟨fun _ _ => 7, fun _ _ => true, fun _ _ => true, fun _ _ => true,
         fun _ _ => true⟩
        ⟨[(1, 7)], [], [], [], [3], [], true, SBState.parserInitialized, true⟩
        [⟨MediaTrackType.audio, 1, 3⟩] []).2.2 := by
  have h := (onNewConfigs_commit_state_spec
    ⟨fun _ _ => 7, fun _ _ => true, fun _ _ => true, fun _ _ => true,
     fun _ _ => true⟩
    ⟨[(1, 7)], [], [], [], [3], [], true, SBState.parserInitialized, true⟩
    [⟨MediaTrackType.audio, 1, 3⟩] []).2.1 (by decide)
  exact ⟨h.1, h.2.1⟩

/-- C5 (amended): invoking `OnNewConfigs` outside an append is fatal for
every proposal that passes the duplicate-identifier check; the duplicate
check runs before the `CHECK(append_in_progress_)` contract assertion. -/
theorem onNewConfigs_fatal_outside_append (env : Env) (st : MSState)
    (tracks : List ProposedTrack) (texts : List (TrackId × TextTrackConfig))
    (hni : st.appendInProgress = false)
    (hck : CheckBytestreamTrackIds tracks texts = true) :
    (OnNewConfigs env st tracks texts).1 = ConfigOutcome.fatal := by
  simp [OnNewConfigs, hck, hni]

/-- C5 counterexample: outside an append, a proposal with duplicate
bytestream ids returns a recoverable failure instead of hitting the fatal
contract check, so the fatal branch does not fire regardless of content. -/
theorem onNewConfigs_fatal_cex :
    (OnNewConfigs
      ⟨fun _ _ => 7, fun _ _ => true, fun _ _ => true, fun _ _ => true,
       fun _ _ => true⟩
      ⟨[], [], [], [], [3], [], false, SBState.pendingParserConfig, false⟩
      [⟨MediaTrackType.audio, 1, 3⟩, ⟨MediaTrackType.audio, 1, 3⟩] []).1 =
      ConfigOutcome.ret false ∧
    (OnNewConfigs
      ⟨fun _ _ => 7, fun _ _ => true, fun _ _ => true, fun _ _ => true,
       fun _ _ => true⟩
      ⟨[], [], [], [], [3], [], false, SBState.pendingParserConfig, false⟩
      [⟨MediaTrackType.audio, 1, 3⟩, ⟨MediaTrackType.audio, 1, 3⟩] []).1 ≠
      ConfigOutcome.fatal := by
  constructor
  · decide
  · decide

/-- C5 witness: outside an append, a duplicate-free proposal does hit the
fatal contract check. -/
theorem onNewConfigs_fatal_outside_append_witness :
    (OnNewConfigs
      ⟨fun _ _ => 7, fun _ _ => true, fun _ _ => true, fun _ _ => true,
       fun _ _ => true⟩
      ⟨[], [], [], [], [3], [], false, SBState.pendingParserConfig, false⟩
      [⟨MediaTrackType.audio, 1, 3⟩] []).1 = ConfigOutcome.fatal :=
  onNewConfigs_fatal_outside_append
    ⟨fun _ _ => 7, fun _ _ => true, fun _ _ => true, fun _ _ => true,
     fun _ _ => true⟩
    ⟨[], [], [], [], [3], [], false, SBState.pendingParserConfig, false⟩
    [⟨MediaTrackType.audio, 1, 3⟩] [] rfl (by decide)

/-- C8 (claim): a proposal whose audio (resp. video) track carries a codec
absent from the expected-codec list fails the negotiation before the
stream factory is consulted: no effect at all is emitted (in particular no
factory call) and both stream tables are unchanged. -/
theorem onNewConfigs_first_codec_mismatch (env : Env) (st : MSState)
    (k : MediaTrackType) (tid : TrackId) (codec : Nat)
    (_hf : st.firstInitSegmentReceived = false)
    (ha : st.appendInProgress = true)
    (hk : (k = MediaTrackType.audio ∧ codec ∉ st.expectedAudioCodecs) ∨
          (k = MediaTrackType.video ∧ codec ∉ st.expectedVideoCodecs)) :
    (OnNewConfigs env st [⟨k, tid, codec⟩] []).1 = ConfigOutcome.ret false ∧
    (OnNewConfigs env st [⟨k, tid, codec⟩] []).2.1.audioStreams =
      st.audioStreams ∧
    (OnNewConfigs env st [⟨k, tid, codec⟩] []).2.1.videoStreams =
      st.videoStreams ∧
    ∀ kk rr, Eff.createStream kk rr ∉ (OnNewConfigs env st [⟨k, tid, codec⟩] []).2.2 := by
  rcases hk with ⟨rfl, hm⟩ | ⟨rfl, hm⟩ <;>
    simp [OnNewConfigs, CheckBytestreamTrackIds, checkIdsAux, processTracks,
      writebackLoop, ha, hm]

/-- C8 witness: a first init segment proposing an audio track with codec 9
against expected list `[3]` fails with no factory call and unchanged
tables. -/
theorem onNewConfigs_first_codec_mismatch_witness :
    (OnNewConfigs
      ⟨fun _ _ => 7, fun _ _ => true, fun _ _ => true, fun _ _ => true,
       fun _ _ => true⟩
      ⟨[], [], [], [], [3], [], false, SBState.pendingParserConfig, true⟩
      [⟨MediaTrackType.audio, 1, 9⟩] []).1 = ConfigOutcome.ret false ∧
    ∀ kk rr, Eff.createStream kk rr ∉
      (OnNewConfigs
        ⟨fun _ _ => 7, fun _ _ => true, fun _ _ => true, fun _ _ => true,
         fun _ _ => true⟩
        ⟨[], [], [], [], [3], [], false, SBState.pendingParserConfig, true⟩
        [⟨MediaTrackType.audio, 1, 9⟩] []).2.2 := by
  have h := onNewConfigs_first_codec_mismatch
    ⟨fun _ _ => 7, fun _ _ => true, fun _ _ => true, fun _ _ => true,
     fun _ _ => true⟩
    ⟨[], [], [], [], [3], [], false, SBState.pendingParserConfig, true⟩
    MediaTrackType.audio 1 9 rfl rfl (Or.inl ⟨rfl, by decide⟩)
  exact ⟨h.1, h.2.2.2⟩

/-- C10 (claim): during first-time text track creation a null factory
result is not detected — the null handle is registered with the frame
processor, configured, stored in the text table and announced through the
new-text-track callback, and the negotiation still succeeds; by contrast,
a null factory result for an audio track makes the negotiation fail
immediately, before even registering the track. -/
theorem textTrack_null_stream_unchecked :
    ((OnNewConfigs
        ⟨fun _ _ => 0, fun _ _ => true, fun _ _ => true, fun _ _ => true,
         fun _ _ => true⟩
        ⟨[(1, 5)], [], [], [], [], [], true, SBState.parserInitialized, true⟩
        [] [(4, ⟨1, 2, 3, 9⟩)]).1 = ConfigOutcome.ret true ∧
     (OnNewConfigs
        ⟨fun _ _ => 0, fun _ _ => true, fun _ _ => true, fun _ _ => true,
         fun _ _ => true⟩
        ⟨[(1, 5)], [], [], [], [], [], true, SBState.parserInitialized, true⟩
        [] [(4, ⟨1, 2, 3, 9⟩)]).2.1.textStreamMap = [(4, 0)] ∧
     Eff.addTrack 4 0 true ∈
       (OnNewConfigs
          ⟨fun _ _ => 0, fun _ _ => true, fun _ _ => true, fun _ _ => true,
           fun _ _ => true⟩
          ⟨[(1, 5)], [], [], [], [], [], true, SBState.parserInitialized, true⟩
          [] [(4, ⟨1, 2, 3, 9⟩)]).2.2 ∧
     Eff.updateTextConfig 0 ∈
       (OnNewConfigs
          ⟨fun _ _ => 0, fun _ _ => true, fun _ _ => true, fun _ _ => true,
           fun _ _ => true⟩
          ⟨[(1, 5)], [], [], [], [], [], true, SBState.parserInitialized, true⟩
          [] [(4, ⟨1, 2, 3, 9⟩)]).2.2 ∧
     Eff.newTextTrackCb 0 ∈
       (OnNewConfigs
          ⟨fun _ _ => 0, fun _ _ => true, fun _ _ => true, fun _ _ => true,
           fun _ _ => true⟩
          ⟨[(1, 5)], [], [], [], [], [], true, SBState.parserInitialized, true⟩
          [] [(4, ⟨1, 2, 3, 9⟩)]).2.2) ∧
    ((OnNewConfigs
        ⟨fun _ _ => 0, fun _ _ => true, fun _ _ => true, fun _ _ => true,
         fun _ _ => true⟩
        ⟨[], [], [], [], [3], [], false, SBState.pendingParserConfig, true⟩
        [⟨MediaTrackType.audio, 1, 3⟩] []).1 = ConfigOutcome.ret false ∧
     (OnNewConfigs
        ⟨fun _ _ => 0, fun _ _ => true, fun _ _ => true, fun _ _ => true,
         fun _ _ => true⟩
        ⟨[], [], [], [], [3], [], false, SBState.pendingParserConfig, true⟩
        [⟨MediaTrackType.audio, 1, 3⟩] []).2.1.audioStreams = [] ∧
     (OnNewConfigs
        ⟨fun _ _ => 0, fun _ _ => true, fun _ _ => true, fun _ _ => true,
         fun _ _ => true⟩
        ⟨[], [], [], [], [3], [], false, SBState.pendingParserConfig, true⟩
        [⟨MediaTrackType.audio, 1, 3⟩] []).2.2 =
        [Eff.createStream StreamKind.audio 0]) := by
  exact ⟨⟨by decide, by decide, by decide, by decide, by decide⟩,
         ⟨by decide, by decide, by decide⟩⟩

/-- Single-entry identity remap on the map representation: inserting the
new key for the same handle and erasing the old key leaves exactly the new
binding. -/
theorem smap_single_remap {α : Type} (o k : Nat) (v : α) (h : o ≠ k) :
    SMap.erase (SMap.insert [(o, v)] k v) o = [(k, v)] := by
  rcases Nat.lt_trichotomy k o with hlt | heq | hgt
  · simp [SMap.insert, SMap.erase, hlt, Nat.ne_of_lt hlt, List.filter]
  · exact absurd heq.symm h
  · have hne : (k != o) = true := by simp [Ne.symm h]
    simp [SMap.insert, SMap.erase, Nat.lt_asymm hgt, Ne.symm h, List.filter,
      hne]

/-- C2 (claim): a later init segment proposing one audio and one video
track under new identifiers, against single-entry audio and video tables,
succeeds; each table keeps its storage handle, its sole key becomes the
new identifier, and the frame processor is notified of each identifier
change. -/
theorem onNewConfigs_single_track_remap (env : Env)
    (oldA sA newA codecA oldV sV newV codecV : Nat)
    (storedS : SMap TextTrackConfig) (sb : SBState)
    (hAV : newA ≠ newV) (hA : oldA ≠ newA) (hV : oldV ≠ newV)
    (hua : env.updateAudioConfigOk sA codecA = true)
    (huv : env.updateVideoConfigOk sV codecV = true) :
    (OnNewConfigs env
      ⟨[(oldA, sA)], [(oldV, sV)], [], storedS, [codecA], [codecV], true, sb,
       true⟩
      [⟨MediaTrackType.audio, newA, codecA⟩,
       ⟨MediaTrackType.video, newV, codecV⟩] []).1 = ConfigOutcome.ret true ∧
    (OnNewConfigs env
      ⟨[(oldA, sA)], [(oldV, sV)], [], storedS, [codecA], [codecV], true, sb,
       true⟩
      [⟨MediaTrackType.audio, newA, codecA⟩,
       ⟨MediaTrackType.video, newV, codecV⟩] []).2.1.audioStreams =
      [(newA, sA)] ∧
    (OnNewConfigs env
      ⟨[(oldA, sA)], [(oldV, sV)], [], storedS, [codecA], [codecV], true, sb,
       true⟩
      [⟨MediaTrackType.audio, newA, codecA⟩,
       ⟨MediaTrackType.video, newV, codecV⟩] []).2.1.videoStreams =
      [(newV, sV)] ∧
    Eff.updateTrack oldA newA ∈
      (OnNewConfigs env
        ⟨[(oldA, sA)], [(oldV, sV)], [], storedS, [codecA], [codecV], true, sb,
         true⟩
        [⟨MediaTrackType.audio, newA, codecA⟩,
         ⟨MediaTrackType.video, newV, codecV⟩] []).2.2 ∧
    Eff.updateTrack oldV newV ∈
      (OnNewConfigs env
        ⟨[(oldA, sA)], [(oldV, sV)], [], storedS, [codecA], [codecV], true, sb,
         true⟩
        [⟨MediaTrackType.audio, newA, codecA⟩,
         ⟨MediaTrackType.video, newV, codecV⟩] []).2.2 := by
  cases sb <;>
    simp [OnNewConfigs, CheckBytestreamTrackIds, checkIdsAux, processTracks,
      resolveAudioStream, resolveVideoStream, createTextTracks, commitConfigs,
      writebackAll, smap_single_remap oldA newA sA hA,
      smap_single_remap oldV newV sV hV, hua, huv, hA, hV, Ne.symm hAV]

/-- C2 witness: remapping audio 1 to 10 (handle 7) and video 2 to 20
(handle 8) succeeds with the expected tables and notifications. -/
theorem onNewConfigs_single_track_remap_witness :
    (OnNewConfigs
      ⟨fun _ _ => 9, fun _ _ => true, fun _ _ => true, fun _ _ => true,
       fun _ _ => true⟩
      ⟨[(1, 7)], [(2, 8)], [], [], [3], [4], true, SBState.parserInitialized,
       true⟩
      [⟨MediaTrackType.audio, 10, 3⟩, ⟨MediaTrackType.video, 20, 4⟩] []).1 =
      ConfigOutcome.ret true ∧
    (OnNewConfigs
      ⟨fun _ _ => 9, fun _ _ => true, fun _ _ => true, fun _ _ => true,
       fun _ _ => true⟩
      ⟨[(1, 7)], [(2, 8)], [], [], [3], [4], true, SBState.parserInitialized,
       true⟩
      [⟨MediaTrackType.audio, 10, 3⟩, ⟨MediaTrackType.video, 20, 4⟩]
      []).2.1.audioStreams = [(10, 7)] := by
  have h := onNewConfigs_single_track_remap
    ⟨fun _ _ => 9, fun _ _ => true, fun _ _ => true, fun _ _ => true,
     fun _ _ => true⟩
    1 7 10 3 2 8 20 4 [] SBState.parserInitialized
    (by decide) (by decide) (by decide) rfl rfl
  exact ⟨h.1, h.2.1⟩

/-! ## Theorems: buffered-range intersection -/

/-- Pointwise characterization of the single-interval intersection. -/
theorem mem_intervalInter (t : Int) (A B : Interval) :
    (∃ p, intervalInter A B = some p ∧ memI t p) ↔ memI t A ∧ memI t B := by
  unfold intervalInter
  split
  · constructor
    · rintro ⟨p, hp, h1, h2⟩
      injection hp with hp
      subst hp
      simp only [max_le_iff] at h1
      have h2' := h2
      simp only [lt_min_iff] at h2'
      exact ⟨⟨h1.1, h2'.1⟩, ⟨h1.2, h2'.2⟩⟩
    · rintro ⟨⟨a1, a2⟩, ⟨b1, b2⟩⟩
      exact ⟨_, rfl, max_le a1 b1, lt_min a2 b2⟩
  · rename_i hcond
    constructor
    · rintro ⟨p, hp, _⟩
      cases hp
    · rintro ⟨⟨a1, a2⟩, ⟨b1, b2⟩⟩
      exact absurd (lt_of_le_of_lt (max_le a1 b1) (lt_min a2 b2)) hcond

/-- Pointwise characterization of the range-set intersection (no
well-formedness needed). -/
theorem mem_rangesInter (t : Int) (a b : List Interval) :
    memR t (rangesInter a b) ↔ memR t a ∧ memR t b := by
  constructor
  · rintro ⟨p, hp, hm⟩
    rw [rangesInter, List.mem_flatMap] at hp
    obtain ⟨A, hA, hp⟩ := hp
    rw [List.mem_filterMap] at hp
    obtain ⟨B, hB, hAB⟩ := hp
    have h := (mem_intervalInter t A B).1 ⟨p, hAB, hm⟩
    exact ⟨⟨A, hA, h.1⟩, ⟨B, hB, h.2⟩⟩
  · rintro ⟨⟨A, hA, hmA⟩, ⟨B, hB, hmB⟩⟩
    obtain ⟨p, hAB, hm⟩ := (mem_intervalInter t A B).2 ⟨hmA, hmB⟩
    exact ⟨p, by
      rw [rangesInter, List.mem_flatMap]
      exact ⟨A, hA, List.mem_filterMap.2 ⟨B, hB, hAB⟩⟩, hm⟩

/-- Pointwise semantics of the intersection fold of
`ComputeRangesIntersection`. -/
theorem memR_inter_foldl (g : List Interval → List Interval) :
    ∀ (l : List (List Interval)) (seed : List Interval) (t : Int),
    memR t (l.foldl (fun acc r => rangesInter acc (g r)) seed) ↔
      memR t seed ∧ ∀ r ∈ l, memR t (g r) := by
  intro l
  induction l with
  | nil => intro seed t; simp
  | cons r rest ih =>
    intro seed t
    rw [List.foldl_cons, ih, mem_rangesInter]
    simp [and_assoc]

/-- The `ended` extension only grows a range set pointwise. -/
theorem memR_extendLast_mono (h : Int) :
    ∀ (l : List Interval) (t : Int), memR t l → memR t (extendLast h l) := by
  intro l
  induction l with
  | nil => intro t ht; simpa [extendLast] using ht
  | cons p rest ih =>
    intro t ht
    cases rest with
    | nil =>
      obtain ⟨q, hq, hm⟩ := ht
      simp only [List.mem_singleton] at hq
      subst hq
      exact ⟨(q.1, max q.2 h), List.mem_singleton.2 rfl,
        hm.1, lt_of_lt_of_le hm.2 (le_max_left _ _)⟩
    | cons q rest2 =>
      obtain ⟨x, hx, hm⟩ := ht
      rcases List.mem_cons.1 hx with rfl | hx
      · exact ⟨x, List.mem_cons_self _ _, hm⟩
      · obtain ⟨y, hy, hmy⟩ := ih t ⟨x, hx, hm⟩
        exact ⟨y, List.mem_cons_of_mem _ hy, hmy⟩

/-- C6 (claim): with identical inputs, the intersection computed with
`ended = true` contains every point of the intersection computed with
`ended = false` — extending each non-empty set's last interval to the
highest end never shrinks the result. -/
theorem computeRangesIntersection_ended_superset
    (l : List (List Interval)) (t : Int)
    (hm : memR t (ComputeRangesIntersection l false)) :
    memR t (ComputeRangesIntersection l true) := by
  unfold ComputeRangesIntersection at hm ⊢
  by_cases he : l.isEmpty
  · simp only [he, if_true] at hm
    simp [memR] at hm
  · simp only [he, Bool.false_eq_true, Bool.false_and, Bool.true_and,
      if_false] at hm ⊢
    rw [memR_inter_foldl] at hm
    rw [memR_inter_foldl]
    obtain ⟨hseed, hall⟩ := hm
    refine ⟨hseed, fun r hr => ?_⟩
    have hrmem := hall r hr
    by_cases hre : r.isEmpty
    · simpa [hre] using hrmem
    · have hcond : (!r.isEmpty) = true := by simp [hre]
      rw [if_pos hcond]
      exact memR_extendLast_mono _ r t hrmem

/-- C6 witness: point 8 of the `ended = false` intersection of
`{[0,10)}` and `{[0,5) ∪ [7,10)}` also lies in the `ended = true`
intersection. -/
theorem computeRangesIntersection_ended_superset_witness :
    memR 8 (ComputeRangesIntersection [[(0, 10)], [(0, 5), (7, 10)]] true) :=
  computeRangesIntersection_ended_superset [[(0, 10)], [(0, 5), (7, 10)]] 8
    (by decide)

/-- In a well-formed range set, the head's start bounds every member. -/
theorem memR_head_le {p : Interval} {rest : List Interval}
    (hwf : wfR (p :: rest)) {x : Int} (hx : memR x (p :: rest)) : p.1 ≤ x := by
  obtain ⟨q, hq, hm⟩ := hx
  rcases List.mem_cons.1 hq with rfl | hq
  · exact hm.1
  · have hpq : p.2 < q.1 := (List.pairwise_cons.1 hwf.2).1 q hq
    have hp : p.1 < p.2 := hwf.1 p (List.mem_cons_self _ _)
    exact le_of_lt (lt_of_lt_of_le (hp.trans hpq) hm.1)

/-- In a well-formed range set, every member of the tail lies strictly
beyond the head's end. -/
theorem memR_tail_gt {p : Interval} {rest : List Interval}
    (hwf : wfR (p :: rest)) {x : Int} (hx : memR x rest) : p.2 < x := by
  obtain ⟨q, hq, hm⟩ := hx
  exact lt_of_lt_of_le ((List.pairwise_cons.1 hwf.2).1 q hq) hm.1

/-- Head ends compare when one well-formed set is pointwise contained in
another with the same head start. -/
theorem head_end_le {p q : Interval} {a' b' : List Interval}
    (hwa : wfR (p :: a')) (hwb : wfR (q :: b')) (hs : p.1 = q.1)
    (himp : ∀ t, memR t (p :: a') → memR t (q :: b')) : p.2 ≤ q.2 := by
  by_contra hlt
  push_neg at hlt
  have hq1 : q.1 < q.2 := hwb.1 q (List.mem_cons_self _ _)
  have hq2 : memR q.2 (p :: a') :=
    ⟨p, List.mem_cons_self _ _, by rw [hs]; exact le_of_lt hq1, hlt⟩
  obtain ⟨x, hx, hm⟩ := himp q.2 hq2
  rcases List.mem_cons.1 hx with rfl | hx
  · exact absurd hm.2 (lt_irrefl _)
  · exact absurd (memR_tail_gt hwb ⟨x, hx, hm⟩) (lt_irrefl _)

/-- Canonical-form uniqueness: two well-formed range sets with the same
points are equal as lists. -/
theorem canon_unique : ∀ (a b : List Interval), wfR a → wfR b →
    (∀ t, memR t a ↔ memR t b) → a = b := by
  intro a
  induction a with
  | nil =>
    intro b hwa hwb hiff
    cases b with
    | nil => rfl
    | cons q rest =>
      exfalso
      have hq : memR q.1 (q :: rest) :=
        ⟨q, List.mem_cons_self _ _, le_refl _, hwb.1 q (List.mem_cons_self _ _)⟩
      have h2 := (hiff q.1).2 hq
      simp [memR] at h2
  | cons p a' ih =>
    intro b hwa hwb hiff
    cases b with
    | nil =>
      exfalso
      have hp : memR p.1 (p :: a') :=
        ⟨p, List.mem_cons_self _ _, le_refl _, hwa.1 p (List.mem_cons_self _ _)⟩
      have h2 := (hiff p.1).1 hp
      simp [memR] at h2
    | cons q b' =>
      have hpmem : memR p.1 (p :: a') :=
        ⟨p, List.mem_cons_self _ _, le_refl _, hwa.1 p (List.mem_cons_self _ _)⟩
      have hqmem : memR q.1 (q :: b') :=
        ⟨q, List.mem_cons_self _ _, le_refl _, hwb.1 q (List.mem_cons_self _ _)⟩
      have hs : p.1 = q.1 :=
        le_antisymm (memR_head_le hwa ((hiff q.1).2 hqmem))
          (memR_head_le hwb ((hiff p.1).1 hpmem))
      have he : p.2 = q.2 :=
        le_antisymm (head_end_le hwa hwb hs fun t => (hiff t).1)
          (head_end_le hwb hwa hs.symm fun t => (hiff t).2)
      have hwa' : wfR a' :=
        ⟨fun r hr => hwa.1 r (List.mem_cons_of_mem _ hr),
         (List.pairwise_cons.1 hwa.2).2⟩
      have hwb' : wfR b' :=
        ⟨fun r hr => hwb.1 r (List.mem_cons_of_mem _ hr),
         (List.pairwise_cons.1 hwb.2).2⟩
      have htails : ∀ t, memR t a' ↔ memR t b' := by
        intro t
        constructor
        · intro ht
          have hgt := memR_tail_gt hwa ht
          obtain ⟨x, hx, hm⟩ := ht
          obtain ⟨y, hy, hmy⟩ :=
            (hiff t).1 ⟨x, List.mem_cons_of_mem _ hx, hm⟩
          rcases List.mem_cons.1 hy with rfl | hy
          · exact absurd (he ▸ hmy.2) (lt_asymm hgt)
          · exact ⟨y, hy, hmy⟩
        · intro ht
          have hgt := memR_tail_gt hwb ht
          obtain ⟨x, hx, hm⟩ := ht
          obtain ⟨y, hy, hmy⟩ :=
            (hiff t).2 ⟨x, List.mem_cons_of_mem _ hx, hm⟩
          rcases List.mem_cons.1 hy with rfl | hy
          · exact absurd (he ▸ hmy.2) (lt_asymm hgt)
          · exact ⟨y, hy, hmy⟩
      rw [ih b' hwa' hwb' htails, Prod.ext hs he]

/-- Bounds of a surviving pairwise interval intersection. -/
theorem intervalInter_bounds {A B p : Interval}
    (h : intervalInter A B = some p) :
    A.1 ≤ p.1 ∧ p.2 ≤ A.2 ∧ B.1 ≤ p.1 ∧ p.2 ≤ B.2 ∧ p.1 < p.2 := by
  unfold intervalInter at h
  split at h
  · injection h with h
    subst h
    rename_i hcond
    exact ⟨le_max_left _ _, min_le_left _ _, le_max_right _ _,
      min_le_right _ _, hcond⟩
  · cases h

/-- Intersecting a well-formed set with one interval keeps the pieces
strictly separated. -/
theorem pairwise_filterMap_inter (A : Interval) (b : List Interval)
    (hb : List.Pairwise (fun p q => p.2 < q.1) b) :
    List.Pairwise (fun p q => p.2 < q.1)
      (b.filterMap (fun B => intervalInter A B)) := by
  induction b with
  | nil => simp
  | cons B rest ih =>
    obtain ⟨hBr, htl⟩ := List.pairwise_cons.1 hb
    rw [List.filterMap_cons]
    cases hfb : intervalInter A B with
    | none => exact ih htl
    | some p =>
      refine List.pairwise_cons.2 ⟨?_, ih htl⟩
      intro y hy
      obtain ⟨C, hC, hAC⟩ := List.mem_filterMap.1 hy
      have h1 := intervalInter_bounds hfb
      have h2 := intervalInter_bounds hAC
      exact lt_of_le_of_lt h1.2.2.2.1 (lt_of_lt_of_le (hBr C hC) h2.2.2.1)

/-- The range-set intersection of two well-formed sets is well-formed. -/
theorem wfR_rangesInter (a b : List Interval) (hwa : wfR a) (hwb : wfR b) :
    wfR (rangesInter a b) := by
  constructor
  · intro p hp
    rw [rangesInter, List.mem_flatMap] at hp
    obtain ⟨A, _, hpF⟩ := hp
    obtain ⟨B, _, hAB⟩ := List.mem_filterMap.1 hpF
    exact (intervalInter_bounds hAB).2.2.2.2
  · have ha := hwa.2
    induction ha with
    | nil => simp [rangesInter]
    | @cons A rest hA htl ih =>
      rw [rangesInter, List.flatMap_cons]
      refine List.pairwise_append.2
        ⟨pairwise_filterMap_inter A b hwb.2, ih ?_, ?_⟩
      · exact ⟨fun r hr => hwa.1 r (List.mem_cons_of_mem _ hr), htl⟩
      · intro x hx y hy
        obtain ⟨Bx, _, hABx⟩ := List.mem_filterMap.1 hx
        obtain ⟨C, hC, hCf⟩ := List.mem_flatMap.1 hy
        obtain ⟨D, _, hCD⟩ := List.mem_filterMap.1 hCf
        have h1 : x.2 ≤ A.2 := (intervalInter_bounds hABx).2.1
        have h2 : A.2 < C.1 := hA C hC
        have h3 : C.1 ≤ y.1 := (intervalInter_bounds hCD).1
        exact lt_of_le_of_lt h1 (lt_of_lt_of_le h2 h3)

/-- The starts of the extended set are starts of the original. -/
theorem extendLast_starts (h : Int) :
    ∀ (l : List Interval), ∀ x ∈ extendLast h l, ∃ y ∈ l, x.1 = y.1 := by
  intro l
  induction l with
  | nil => simp [extendLast]
  | cons p rest ih =>
    intro x hx
    cases rest with
    | nil =>
      simp only [extendLast, List.mem_singleton] at hx
      subst hx
      exact ⟨p, List.mem_cons_self _ _, rfl⟩
    | cons q rest2 =>
      rcases List.mem_cons.1 hx with rfl | hx
      · exact ⟨x, List.mem_cons_self _ _, rfl⟩
      · obtain ⟨y, hy, hxy⟩ := ih x hx
        exact ⟨y, List.mem_cons_of_mem _ hy, hxy⟩

/-- The `ended` extension of a well-formed set is well-formed. -/
theorem wfR_extendLast (h : Int) :
    ∀ (l : List Interval), wfR l → wfR (extendLast h l) := by
  intro l
  induction l with
  | nil => intro _; exact ⟨by simp [extendLast], by simp [extendLast]⟩
  | cons p rest ih =>
    intro hw
    cases rest with
    | nil =>
      constructor
      · intro x hx
        simp only [extendLast, List.mem_singleton] at hx
        subst hx
        exact lt_of_lt_of_le (hw.1 p (List.mem_cons_self _ _)) (le_max_left _ _)
      · simp [extendLast]
    | cons q rest2 =>
      have hw' : wfR (q :: rest2) :=
        ⟨fun r hr => hw.1 r (List.mem_cons_of_mem _ hr),
         (List.pairwise_cons.1 hw.2).2⟩
      have ihw := ih hw'
      constructor
      · intro x hx
        rcases List.mem_cons.1 hx with rfl | hx
        · exact hw.1 x (List.mem_cons_self _ _)
        · exact ihw.1 x hx
      · refine List.pairwise_cons.2 ⟨?_, ihw.2⟩
        intro y hy
        obtain ⟨z, hz, hz1⟩ := extendLast_starts h (q :: rest2) y hy
        rw [hz1]
        exact (List.pairwise_cons.1 hw.2).1 z hz

/-- The intersection fold preserves well-formedness. -/
theorem wfR_inter_foldl (g : List Interval → List Interval) :
    ∀ (l : List (List Interval)) (seed : List Interval), wfR seed →
    (∀ r ∈ l, wfR (g r)) →
    wfR (l.foldl (fun acc r => rangesInter acc (g r)) seed) := by
  intro l
  induction l with
  | nil => intro seed hs _; exact hs
  | cons r rest ih =>
    intro seed hs hg
    rw [List.foldl_cons]
    exact ih _ (wfR_rangesInter _ _ hs (hg r (List.mem_cons_self _ _)))
      (fun x hx => hg x (List.mem_cons_of_mem _ hx))

/-- A left fold with a right-commutative step is permutation invariant. -/
theorem foldl_perm_of_comm {α β : Type} (f : β → α → β)
    (hf : ∀ b x y, f (f b x) y = f (f b y) x) :
    ∀ {l₁ l₂ : List α}, l₁.Perm l₂ → ∀ b, l₁.foldl f b = l₂.foldl f b := by
  intro l₁ l₂ hp
  induction hp with
  | nil => intro b; rfl
  | cons x _ ih => intro b; simp only [List.foldl_cons]; exact ih _
  | swap x y l => intro b; simp only [List.foldl_cons]; rw [hf]
  | trans _ _ ih1 ih2 => intro b; rw [ih1, ih2]

/-- The highest end time is permutation invariant. -/
theorem highestEnd_perm {l₁ l₂ : List (List Interval)} (hp : l₁.Perm l₂) :
    highestEnd l₁ = highestEnd l₂ := by
  refine foldl_perm_of_comm _ ?_ hp 0
  intro b x y
  by_cases hx : x.isEmpty <;> by_cases hy : y.isEmpty <;>
    simp [hx, hy, max_assoc, max_comm (lastEnd x) (lastEnd y)]

/-- C7 (claim): the buffered-range intersection is invariant under any
permutation of the per-track range sets (for well-formed inputs, which is
the invariant the `Ranges` class maintains): the final range set is
identical. -/
theorem computeRangesIntersection_perm_invariant
    (l₁ l₂ : List (List Interval)) (ended : Bool) (hp : l₁.Perm l₂)
    (hwf : ∀ r ∈ l₁, wfR r) :
    ComputeRangesIntersection l₁ ended = ComputeRangesIntersection l₂ ended := by
  unfold ComputeRangesIntersection
  rcases eq_or_ne l₁ [] with rfl | hne
  · rw [List.Perm.eq_nil hp.symm]
  · have hne2 : l₂ ≠ [] := fun h => hne (List.Perm.eq_nil (h ▸ hp))
    have he1 : l₁.isEmpty = false := by simpa [List.isEmpty_iff] using hne
    have he2 : l₂.isEmpty = false := by simpa [List.isEmpty_iff] using hne2
    rw [he1, he2]
    simp only [Bool.false_eq_true, if_false]
    rw [highestEnd_perm hp]
    have hwf2 : ∀ r ∈ l₂, wfR r := fun r hr => hwf r (hp.mem_iff.2 hr)
    have hseed : wfR (if 0 < highestEnd l₂ then [(0, highestEnd l₂)] else []) := by
      split
      · exact ⟨by simpa using by assumption, by simp⟩
      · exact ⟨by simp, by simp⟩
    have hg1 : ∀ r ∈ l₁, wfR
        (if (ended && !r.isEmpty) = true then extendLast (highestEnd l₂) r
         else r) := by
      intro r hr
      split
      · exact wfR_extendLast _ r (hwf r hr)
      · exact hwf r hr
    have hg2 : ∀ r ∈ l₂, wfR
        (if (ended && !r.isEmpty) = true then extendLast (highestEnd l₂) r
         else r) := by
      intro r hr
      split
      · exact wfR_extendLast _ r (hwf2 r hr)
      · exact hwf2 r hr
    apply canon_unique
    · exact wfR_inter_foldl _ l₁ _ hseed hg1
    · exact wfR_inter_foldl _ l₂ _ hseed hg2
    · intro t
      rw [memR_inter_foldl, memR_inter_foldl]
      constructor
      · rintro ⟨hs, hall⟩
        exact ⟨hs, fun r hr => hall r (hp.mem_iff.2 hr)⟩
      · rintro ⟨hs, hall⟩
        exact ⟨hs, fun r hr => hall r (hp.mem_iff.1 hr)⟩

/-- C7 witness: swapping the two input range sets yields the identical
intersection. -/
theorem computeRangesIntersection_perm_invariant_witness :
    ComputeRangesIntersection [[(0, 5)], [(2, 8)]] true =
      ComputeRangesIntersection [[(2, 8)], [(0, 5)]] true :=
  computeRangesIntersection_perm_invariant [[(0, 5)], [(2, 8)]]
    [[(2, 8)], [(0, 5)]] true (List.Perm.swap _ _ _) (by decide)

end MediaSourceState
